import Mathlib

/-!
Shallow embedding of `src/src/solver/ddm1/ddm1_resistance.cc`
(`MetalSimulationRegion` DDM1 assembly routines of the Genius TCAD
simulator) and proofs about the claims of the specification.

Scalars (`PetscScalar`) are modelled as exact rationals `ℚ`.  PETSc
vectors are total maps `ℕ → ℚ` indexed by global offsets; a
`VecSetValues` call is modelled by the buffered list of `(index, value)`
pairs it receives, applied with either insert (overwrite) or additive
semantics.  The sparse Jacobian matrix receives a list of
`(row, col, value)` triples.
-/

/-- PETSc insertion mode, restricted to the three values the file uses. -/
inductive InsertMode : Type where
  | NOT_SET_VALUES : InsertMode
  | INSERT_VALUES : InsertMode
  | ADD_VALUES : InsertMode
deriving DecidableEq, Repr

/-- Per-node persistent state (`FVM_NodeData`): current potential `psi`
and previous potential `psi_last`. -/
structure FVM_NodeData : Type where
  psi : ℚ
  psi_last : ℚ
deriving DecidableEq, Repr

/-- A finite-volume mesh node: global index into the distributed
vectors, local index into this worker's solution array, ownership flag,
control volume, and node state. -/
structure FVM_Node : Type where
  global_offset : ℕ
  local_offset : ℕ
  on_processor : Bool
  volume : ℚ
  node_data : FVM_NodeData
deriving DecidableEq, Repr

/-- A mesh edge of the region: the ordered node pair together with the
inter-node distance and the (signed) control-volume interface area. -/
structure MeshEdge : Type where
  node1 : FVM_Node
  node2 : FVM_Node
  distance : ℚ
  cv_surface_area : ℚ
deriving DecidableEq, Repr

/-- Modelled from the spec: the material database's current-density law
`CurrentDensity(E,T)` lives outside this translation unit; it is an
arbitrary nonlinear law.  `J` is its plain evaluation and `dJdE` the
tangent its AD-aware overload propagates (the partial derivative in the
field argument). -/
structure MaterialLaw : Type where
  J : ℚ → ℚ → ℚ
  dJdE : ℚ → ℚ → ℚ

/-- The region (`MetalSimulationRegion`) data the DDM1 routines read:
edge list, the on-processor node list, conductance, the auxiliary
lumped-network parameters, z extent, node count and the
low-resistance-solderpad flag. -/
structure MetalSimulationRegion : Type where
  edges : List MeshEdge
  on_processor_nodes : List FVM_Node
  on_local_nodes : List FVM_Node
  conductance : ℚ
  aux_capacitance : ℚ
  aux_resistance : ℚ
  total_nodes_in_connected_resistance_region : ℕ
  z_width : ℚ
  n_node : ℕ
  connect_to_low_resistance_solderpad : Bool

/-- Solver configuration (`SolverSpecify`) fields read by this file. -/
structure SolverSpecify : Type where
  dt : ℚ
  PseudoTimeCMOSTime : ℚ
  PseudoTimeStepMetal : ℚ
  PseudoTimeTolRelax : ℚ
  elec_continuity_abs_toler : ℚ
  hole_continuity_abs_toler : ℚ
  relative_toler : ℚ
deriving DecidableEq, Repr

/-- Apply a buffered `VecSetValues(..., INSERT_VALUES)` call: each pair
overwrites the vector entry at its index, in buffer order. -/
def applyInserts (v : ℕ → ℚ) (w : List (ℕ × ℚ)) : ℕ → ℚ :=
  w.foldl (fun v p => Function.update v p.1 p.2) v

/-- Apply a buffered `VecSetValues(..., ADD_VALUES)` call: each pair is
added to the vector entry at its index. -/
def applyAdds (v : ℕ → ℚ) (w : List (ℕ × ℚ)) : ℕ → ℚ :=
  w.foldl (fun v p => Function.update v p.1 (v p.1 + p.2)) v

/-- Net amount a buffered additive write list contributes to entry `i`. -/
def vecContrib (w : List (ℕ × ℚ)) (i : ℕ) : ℚ :=
  ((w.filter (fun p => p.1 = i)).map (fun p => p.2)).sum

/-- Net amount a list of `(row, col, value)` matrix insertions
contributes to the entry at `(i, j)`. -/
def matContrib (w : List (ℕ × ℕ × ℚ)) (i j : ℕ) : ℚ :=
  ((w.filter (fun t => t.1 = i ∧ t.2.1 = j)).map (fun t => t.2.2)).sum

/-- `DDM1_Fill_Value` buffers, for every on-processor node, the stored
potential `psi` at the node's global offset (for the solution vector
`x`) and `1/(sigma*volume)` at the same offset (for the scaling vector
`L`), then issues both `VecSetValues` calls with `INSERT_VALUES`.
Returns the two write lists `(for x, for L)`. -/
def DDM1_Fill_Value_writes (r : MetalSimulationRegion) :
    List (ℕ × ℚ) × List (ℕ × ℚ) :=
  let sigma := r.conductance
  (r.on_processor_nodes.map (fun n => (n.global_offset, n.node_data.psi)),
   r.on_processor_nodes.map (fun n => (n.global_offset, 1 / (sigma * n.volume))))

/-- Global assembly state visible to `DDM1_Fill_Value`: the two vectors
it writes and the solver's insertion-mode flag (which the routine does
not receive and hence cannot touch). -/
structure FillState : Type where
  x : ℕ → ℚ
  L : ℕ → ℚ
  add_value_flag : InsertMode

/-- Effect of `MetalSimulationRegion::DDM1_Fill_Value(Vec x, Vec L)` on
the assembly state: the two buffered insert lists are applied to `x`
and `L`; nothing else changes. -/
def DDM1_Fill_Value (r : MetalSimulationRegion) (st : FillState) : FillState :=
  { st with
    x := applyInserts st.x (DDM1_Fill_Value_writes r).1
    L := applyInserts st.L (DDM1_Fill_Value_writes r).2 }

/-- Modelled from the spec: `adtl::AutoDScalar` with two active tangent
directions (`numdir = 2`) — a dual number holding the value and the two
partial derivatives that the overloaded arithmetic propagates by the
chain rule. -/
structure AD2 : Type where
  val : ℚ
  d0 : ℚ
  d1 : ℚ
deriving DecidableEq, Repr

def AD2.sub (a b : AD2) : AD2 := ⟨a.val - b.val, a.d0 - b.d0, a.d1 - b.d1⟩

def AD2.divConst (a : AD2) (c : ℚ) : AD2 := ⟨a.val / c, a.d0 / c, a.d1 / c⟩

def AD2.mulConst (a : AD2) (c : ℚ) : AD2 := ⟨a.val * c, a.d0 * c, a.d1 * c⟩

def AD2.neg (a : AD2) : AD2 := ⟨-a.val, -a.d0, -a.d1⟩

/-- Modelled from the spec: the AD-aware overload of
`CurrentDensity(E,T)` propagates the tangents of `E` through the law by
the chain rule, scaling each by the law's derivative in `E`. -/
def MaterialLaw.evalAD2 (mt : MaterialLaw) (E : AD2) (T : ℚ) : AD2 :=
  ⟨mt.J E.val T, mt.dJdE E.val T * E.d0, mt.dJdE E.val T * E.d1⟩

/-- Modelled from the spec: `adtl::AutoDScalar` with a single active
tangent direction (`numdir = 1`). -/
structure AD1 : Type where
  val : ℚ
  d0 : ℚ
deriving DecidableEq, Repr

def AD1.sub (a b : AD1) : AD1 := ⟨a.val - b.val, a.d0 - b.d0⟩

def AD1.subConst (a : AD1) (c : ℚ) : AD1 := ⟨a.val - c, a.d0⟩

def AD1.constMul (a : AD1) (c : ℚ) : AD1 := ⟨c * a.val, c * a.d0⟩

def AD1.divConst (a : AD1) (c : ℚ) : AD1 := ⟨a.val / c, a.d0 / c⟩

/-- The plain-valued edge flux of `DDM1_Function`:
`E = (V2-V1)/distance`, `S = |cv_surface_area|` (truncated to
positive), `f = CurrentDensity(E,T)*S`, the flux from node 2 to
node 1. -/
def edge_flux (mt : MaterialLaw) (T : ℚ) (x : ℕ → ℚ) (e : MeshEdge) : ℚ :=
  let V1 := x e.node1.local_offset
  let V2 := x e.node2.local_offset
  let E := (V2 - V1) / e.distance
  let S := |e.cv_surface_area|
  mt.J E T * S

/-- Residual writes one edge buffers in `DDM1_Function`: `+f` at node1's
global offset when node1 is on processor, `-f` at node2's when node2
is. -/
def edge_residual (mt : MaterialLaw) (T : ℚ) (x : ℕ → ℚ) (e : MeshEdge) :
    List (ℕ × ℚ) :=
  let f := edge_flux mt T x e
  (if e.node1.on_processor then [(e.node1.global_offset, f)] else []) ++
  (if e.node2.on_processor then [(e.node2.global_offset, -f)] else [])

/-- The flux re-evaluated by `DDM1_Jacobian` with `V1`, `V2` as active
AD variables (`setADValue(0,1.0)`, `setADValue(1,1.0)`). -/
def edge_flux_AD (mt : MaterialLaw) (T : ℚ) (x : ℕ → ℚ) (e : MeshEdge) :
    AD2 :=
  let V1 : AD2 := ⟨x e.node1.local_offset, 1, 0⟩
  let V2 : AD2 := ⟨x e.node2.local_offset, 0, 1⟩
  let E : AD2 := (V2.sub V1).divConst e.distance
  let S : ℚ := |e.cv_surface_area|
  (mt.evalAD2 E T).mulConst S

/-- Per-edge Jacobian insertions of `DDM1_Jacobian`:
`add_row(row[0], 2, col, f.getADValue())` when node1 is on processor and
the row of `(-f).getADValue()` for node2. -/
def edge_jacobian (mt : MaterialLaw) (T : ℚ) (x : ℕ → ℚ) (e : MeshEdge) :
    List (ℕ × ℕ × ℚ) :=
  let f : AD2 := edge_flux_AD mt T x e
  let g1 := e.node1.global_offset
  let g2 := e.node2.global_offset
  (if e.node1.on_processor then [(g1, g1, f.d0), (g1, g2, f.d1)] else []) ++
  (if e.node2.on_processor then [(g2, g1, f.neg.d0), (g2, g2, f.neg.d1)] else [])

/-- The lumped-network capacitance normalization of `DDM1_Function`:
`cap = _aux_capacitance/(N+1)` with `N` the connected-network node
count. -/
def aux_cap_param (C : ℚ) (N : ℕ) : ℚ := C / ((N : ℚ) + 1)

/-- The lumped-network resistance normalization of `DDM1_Function`:
`res = _aux_resistance*(N+1)`. -/
def aux_res_param (R : ℚ) (N : ℕ) : ℚ := R * ((N : ℚ) + 1)

/-- Auxiliary lumped-element residual term of `DDM1_Function`:
`current = -cap*(V-psi)/dt - (V-psi)/res`. -/
def aux_current (r : MetalSimulationRegion) (s : SolverSpecify) (x : ℕ → ℚ)
    (n : FVM_Node) : ℚ :=
  let cap := aux_cap_param r.aux_capacitance
    r.total_nodes_in_connected_resistance_region
  let res := aux_res_param r.aux_resistance
    r.total_nodes_in_connected_resistance_region
  let V := x n.local_offset
  let current := -cap * (V - n.node_data.psi) / s.dt - (V - n.node_data.psi) / res
  current

/-- The same auxiliary term evaluated with a single-direction AD value
(`V.setADValue(0, 1.0)`), as `DDM1_Jacobian` does. -/
def aux_current_AD (r : MetalSimulationRegion) (s : SolverSpecify) (x : ℕ → ℚ)
    (n : FVM_Node) : AD1 :=
  let cap := aux_cap_param r.aux_capacitance
    r.total_nodes_in_connected_resistance_region
  let res := aux_res_param r.aux_resistance
    r.total_nodes_in_connected_resistance_region
  let V : AD1 := ⟨x n.local_offset, 1⟩
  (((V.subConst n.node_data.psi).constMul (-cap)).divConst s.dt).sub
    ((V.subConst n.node_data.psi).divConst res)

/-- The auxiliary lumped-element block of `DDM1_Function`: one buffered
write per on-processor node, at the node's global offset. -/
def aux_residual_writes (r : MetalSimulationRegion) (s : SolverSpecify)
    (x : ℕ → ℚ) : List (ℕ × ℚ) :=
  r.on_processor_nodes.map (fun n => (n.global_offset, aux_current r s x n))

/-- The auxiliary lumped-element block of `DDM1_Jacobian`: one diagonal
insertion `jac->add(g, g, current.getADValue(0))` per on-processor
node. -/
def aux_jacobian_entries (r : MetalSimulationRegion) (s : SolverSpecify)
    (x : ℕ → ℚ) : List (ℕ × ℕ × ℚ) :=
  r.on_processor_nodes.map (fun n =>
    (n.global_offset, n.global_offset, (aux_current_AD r s x n).d0))

/-- The full write list `DDM1_Function` buffers before its single
`VecSetValues(f, ..., ADD_VALUES)` call: all per-edge flux
contributions, then the per-node auxiliary lumped-element terms for the
on-processor nodes. -/
def DDM1_Function_writes (r : MetalSimulationRegion) (mt : MaterialLaw)
    (s : SolverSpecify) (T : ℚ) (x : ℕ → ℚ) : List (ℕ × ℚ) :=
  r.edges.flatMap (edge_residual mt T x) ++ aux_residual_writes r s x

/-- Observable events of a residual-assembly pass: the
`VecAssemblyBegin/End` synchronization barrier and individual additive
writes. -/
inductive AssemblyEvent : Type where
  | barrier : AssemblyEvent
  | add : ℕ → ℚ → AssemblyEvent
deriving DecidableEq, Repr

def AssemblyEvent.isAdd : AssemblyEvent → Bool
  | .add _ _ => true
  | .barrier => false

def AssemblyEvent.isBarrier : AssemblyEvent → Bool
  | .add _ _ => false
  | .barrier => true

def hasAdd (tr : List AssemblyEvent) : Bool := tr.any AssemblyEvent.isAdd

def hasBarrier (tr : List AssemblyEvent) : Bool := tr.any AssemblyEvent.isBarrier

/-- Holds when the trace issues no additive write before a barrier has
completed: either there is no additive write at all, or the prefix
strictly before the first additive write contains a barrier. -/
def barrierBeforeFirstAdd (tr : List AssemblyEvent) : Bool :=
  !hasAdd tr || hasBarrier (tr.takeWhile (fun e => !e.isAdd))

/-- `MetalSimulationRegion::DDM1_Function`: when the incoming insertion
mode is neither `ADD_VALUES` nor `NOT_SET_VALUES`, the vector is
assembled first (barrier); then the buffered writes are added, and the
flag is left at `ADD_VALUES`.  Returns the event trace, the updated
residual vector and the outgoing flag. -/
def DDM1_Function (r : MetalSimulationRegion) (mt : MaterialLaw)
    (s : SolverSpecify) (T : ℚ) (x : ℕ → ℚ) (f : ℕ → ℚ)
    (add_value_flag : InsertMode) :
    List AssemblyEvent × (ℕ → ℚ) × InsertMode :=
  let pre : List AssemblyEvent :=
    if add_value_flag ≠ InsertMode.ADD_VALUES ∧
       add_value_flag ≠ InsertMode.NOT_SET_VALUES
    then [AssemblyEvent.barrier] else []
  let w := DDM1_Function_writes r mt s T x
  (pre ++ w.map (fun p => AssemblyEvent.add p.1 p.2), applyAdds f w,
   InsertMode.ADD_VALUES)

/-- `MetalSimulationRegion::DDM1_Jacobian`: per-edge AD rows followed by
the per-node auxiliary diagonal entries
(`jac->add(g, g, current.getADValue(0))`); the flag is left at
`ADD_VALUES`. -/
def DDM1_Jacobian (r : MetalSimulationRegion) (mt : MaterialLaw)
    (s : SolverSpecify) (T : ℚ) (x : ℕ → ℚ) (_add_value_flag : InsertMode) :
    List (ℕ × ℕ × ℚ) × InsertMode :=
  let entries :=
    r.edges.flatMap (edge_jacobian mt T x) ++ aux_jacobian_entries r s x
  (entries, InsertMode.ADD_VALUES)

/-- The pseudo-transient per-node capacitance
`cap = sigma * pow(volume*z_width, 1/3) * PseudoTimeCMOSTime / z_width
/ n_node`.  The cube root is computed by the external C library call
`pow(x, 1.0/3.0)`; it is passed in as an opaque routine `cbrt`. -/
def pseudo_cap (cbrt : ℚ → ℚ) (r : MetalSimulationRegion) (s : SolverSpecify)
    (n : FVM_Node) : ℚ :=
  r.conductance * cbrt (n.volume * r.z_width) * s.PseudoTimeCMOSTime /
    r.z_width / (r.n_node : ℚ)

/-- Pseudo-transient residual term
`f_V = -cap*(V - psi)/PseudoTimeStepMetal`. -/
def pseudo_f (cbrt : ℚ → ℚ) (r : MetalSimulationRegion) (s : SolverSpecify)
    (x : ℕ → ℚ) (n : FVM_Node) : ℚ :=
  let cap := pseudo_cap cbrt r s n
  let fV := -cap * (x n.local_offset - n.node_data.psi) / s.PseudoTimeStepMetal
  fV

/-- The same pseudo-transient term evaluated with a single-direction AD
value, as `DDM1_Pseudo_Time_Step_Jacobian` does. -/
def pseudo_f_AD (cbrt : ℚ → ℚ) (r : MetalSimulationRegion) (s : SolverSpecify)
    (x : ℕ → ℚ) (n : FVM_Node) : AD1 :=
  let cap := pseudo_cap cbrt r s n
  let V : AD1 := ⟨x n.local_offset, 1⟩
  ((V.subConst n.node_data.psi).constMul (-cap)).divConst s.PseudoTimeStepMetal

/-- The per-node pseudo-transient residual writes: `VecSetValue(f,
global_offset, f_V, ADD_VALUES)` for each on-processor node. -/
def pseudo_writes (cbrt : ℚ → ℚ) (r : MetalSimulationRegion)
    (s : SolverSpecify) (x : ℕ → ℚ) : List (ℕ × ℚ) :=
  r.on_processor_nodes.map (fun n => (n.global_offset, pseudo_f cbrt r s x n))

/-- The per-node pseudo-transient diagonal Jacobian insertions
`jac->add(g, g, f_V.getADValue(0))`. -/
def pseudo_jacobian_entries (cbrt : ℚ → ℚ) (r : MetalSimulationRegion)
    (s : SolverSpecify) (x : ℕ → ℚ) : List (ℕ × ℕ × ℚ) :=
  r.on_processor_nodes.map (fun n =>
    (n.global_offset, n.global_offset, (pseudo_f_AD cbrt r s x n).d0))

/-- `MetalSimulationRegion::DDM1_Pseudo_Time_Step_Function`: the barrier
check runs first; if the region connects to a low-resistance solderpad
the routine returns immediately (flag unchanged); otherwise each
on-processor node adds its pseudo-transient term and the flag is left
at `ADD_VALUES`. -/
def DDM1_Pseudo_Time_Step_Function (cbrt : ℚ → ℚ)
    (r : MetalSimulationRegion) (s : SolverSpecify) (x : ℕ → ℚ) (f : ℕ → ℚ)
    (add_value_flag : InsertMode) :
    List AssemblyEvent × (ℕ → ℚ) × InsertMode :=
  let pre : List AssemblyEvent :=
    if add_value_flag ≠ InsertMode.ADD_VALUES ∧
       add_value_flag ≠ InsertMode.NOT_SET_VALUES
    then [AssemblyEvent.barrier] else []
  if r.connect_to_low_resistance_solderpad then (pre, f, add_value_flag)
  else
    let w := pseudo_writes cbrt r s x
    (pre ++ w.map (fun p => AssemblyEvent.add p.1 p.2), applyAdds f w,
     InsertMode.ADD_VALUES)

/-- `MetalSimulationRegion::DDM1_Pseudo_Time_Step_Jacobian`: immediate
return when the region connects to a low-resistance solderpad (flag
unchanged, no insertion); otherwise one diagonal entry per on-processor
node and the flag is left at `ADD_VALUES`. -/
def DDM1_Pseudo_Time_Step_Jacobian (cbrt : ℚ → ℚ)
    (r : MetalSimulationRegion) (s : SolverSpecify) (x : ℕ → ℚ)
    (add_value_flag : InsertMode) : List (ℕ × ℕ × ℚ) × InsertMode :=
  if r.connect_to_low_resistance_solderpad then ([], add_value_flag)
  else (pseudo_jacobian_entries cbrt r s x, InsertMode.ADD_VALUES)

/-- One node's test in `DDM1_Pseudo_Time_Step_Convergence_Test`: the
node counts as unconverged when `|f_V|` strictly exceeds
`PseudoTimeTolRelax*0.5*(elec_continuity_abs_toler +
hole_continuity_abs_toler)` and the relative change
`|cap*(V-psi)|/(|V|+|psi|+1e-10)` strictly exceeds `relative_toler`. -/
def node_unconverged (cbrt : ℚ → ℚ) (r : MetalSimulationRegion)
    (s : SolverSpecify) (x : ℕ → ℚ) (n : FVM_Node) : Bool :=
  let cap := pseudo_cap cbrt r s n
  let V := x n.local_offset
  let psi := n.node_data.psi
  let fV_abs := |(-cap * (V - psi) / s.PseudoTimeStepMetal)|
  let V_rel := |cap * (V - psi)| / (|V| + |psi| + 1 / 10 ^ 10)
  decide (fV_abs > s.PseudoTimeTolRelax * (1 / 2) *
      (s.elec_continuity_abs_toler + s.hole_continuity_abs_toler)) &&
    decide (V_rel > s.relative_toler)

/-- `MetalSimulationRegion::DDM1_Pseudo_Time_Step_Convergence_Test`:
returns 0 when the region connects to a low-resistance solderpad,
otherwise the number of on-processor nodes classified unconverged. -/
def DDM1_Pseudo_Time_Step_Convergence_Test (cbrt : ℚ → ℚ)
    (r : MetalSimulationRegion) (s : SolverSpecify) (x : ℕ → ℚ) : ℕ :=
  if r.connect_to_low_resistance_solderpad then 0
  else (r.on_processor_nodes.filter (node_unconverged cbrt r s x)).length

/-- `MetalSimulationRegion::DDM1_Update_Solution`: for each node of the
local-node iteration, `psi_last` receives the old `psi` and `psi`
receives the accepted solution entry at the node's local offset.
Modelled from the spec: the local-node iterator is declared outside this
translation unit; per the spec the Updater commits the iterate "for
every node owned by this worker", so `on_local_nodes` is this worker's
owned node list. -/
def DDM1_Update_Solution (r : MetalSimulationRegion) (lxx : ℕ → ℚ) :
    MetalSimulationRegion :=
  { r with
    on_local_nodes := r.on_local_nodes.map (fun n =>
      { n with node_data := ⟨lxx n.local_offset, n.node_data.psi⟩ }) }

/-! ### Concrete sample inputs used by witnesses and counterexamples -/

/-- An owned node at global/local index 0 with `psi = 2`, unit volume. -/
def sample_node1 : FVM_Node := ⟨0, 0, true, 1, ⟨2, 0⟩⟩

/-- An owned node at global/local index 1 with `psi = 0`, unit volume. -/
def sample_node2 : FVM_Node := ⟨1, 1, true, 1, ⟨0, 0⟩⟩

/-- A ghost (not on-processor) node at global/local index 2. -/
def sample_ghost : FVM_Node := ⟨2, 2, false, 1, ⟨0, 0⟩⟩

/-- A unit edge between the two sample nodes. -/
def sample_edge : MeshEdge := ⟨sample_node1, sample_node2, 1, 1⟩

/-- A two-node, one-edge region, not connected to a solderpad. -/
def sample_region : MetalSimulationRegion :=
  ⟨[sample_edge], [sample_node1, sample_node2], [sample_node1, sample_node2],
   1, 1, 1, 0, 1, 2, false⟩

/-- A one-node region flagged as connected to a low-resistance
solderpad. -/
def pad_region : MetalSimulationRegion :=
  ⟨[], [sample_node1], [sample_node1], 1, 1, 1, 0, 1, 1, true⟩

/-- The linear material law `J(E,T) = E`, whose derivative in `E` is 1. -/
def sample_law : MaterialLaw := ⟨fun E _ => E, fun _ _ => 1⟩

/-- Unit solver configuration. -/
def sample_solver : SolverSpecify := ⟨1, 1, 1, 1, 1, 1, 1⟩

/-- Sample solution array: potential `i` at local offset `i`. -/
def sample_x : ℕ → ℚ := fun i => (i : ℚ)

/-- Sample opaque cube-root routine (any function will do: the theorems
hold for every `cbrt`). -/
def sample_cbrt : ℚ → ℚ := fun q => q

/-- A sample assembly state for `DDM1_Fill_Value`: constant vectors and
an unset insertion-mode flag. -/
def sample_fill_state : FillState :=
  ⟨fun _ => 5, fun _ => 7, InsertMode.NOT_SET_VALUES⟩

/-! ### Supporting lemmas on the vector/matrix write models -/
theorem applyInserts_of_not_mem (v : ℕ → ℚ) (w : List (ℕ × ℚ)) (i : ℕ)
    (h : i ∉ w.map Prod.fst) : applyInserts v w i = v i := by
  induction w generalizing v with
  | nil => rfl
  | cons p w ih =>
    rw [List.map_cons, List.mem_cons] at h
    push_neg at h
    have h1 : applyInserts v (p :: w) i
        = applyInserts (Function.update v p.1 p.2) w i := rfl
    rw [h1, ih _ h.2, Function.update_noteq h.1]

theorem applyAdds_of_not_mem (v : ℕ → ℚ) (w : List (ℕ × ℚ)) (i : ℕ)
    (h : i ∉ w.map Prod.fst) : applyAdds v w i = v i := by
  induction w generalizing v with
  | nil => rfl
  | cons p w ih =>
    rw [List.map_cons, List.mem_cons] at h
    push_neg at h
    have h1 : applyAdds v (p :: w) i
        = applyAdds (Function.update v p.1 (v p.1 + p.2)) w i := rfl
    rw [h1, ih _ h.2, Function.update_noteq h.1]

theorem applyInserts_of_mem_nodup (v : ℕ → ℚ) (w : List (ℕ × ℚ)) (i : ℕ) (q : ℚ)
    (hnd : (w.map Prod.fst).Nodup) (hm : (i, q) ∈ w) : applyInserts v w i = q := by
  induction w generalizing v with
  | nil => exact absurd hm (List.not_mem_nil _)
  | cons p w ih =>
    rw [List.map_cons, List.nodup_cons] at hnd
    rcases List.mem_cons.mp hm with h | h
    · subst h
      have h1 : applyInserts v ((i, q) :: w) i
          = applyInserts (Function.update v i q) w i := rfl
      rw [h1, applyInserts_of_not_mem _ _ _ hnd.1, Function.update_same]
    · have h1 : applyInserts v (p :: w) i
          = applyInserts (Function.update v p.1 p.2) w i := rfl
      rw [h1]
      exact ih _ hnd.2 h

/-- The net effect of an additive bulk write on one entry is the sum of
the buffered values at that index: `ADD_VALUES` writes commute. -/
theorem applyAdds_eq_add_vecContrib (v : ℕ → ℚ) (w : List (ℕ × ℚ)) (i : ℕ) :
    applyAdds v w i = v i + vecContrib w i := by
  induction w generalizing v with
  | nil => simp [applyAdds, vecContrib]
  | cons p w ih =>
    by_cases hpi : p.1 = i
    · subst hpi
      have h1 : applyAdds v (p :: w) p.1
          = applyAdds (Function.update v p.1 (v p.1 + p.2)) w p.1 := rfl
      have h2 : vecContrib (p :: w) p.1 = p.2 + vecContrib w p.1 := by
        simp [vecContrib, List.filter_cons]
      rw [h1, h2, ih, Function.update_same]
      ring
    · have h1 : applyAdds v (p :: w) i
          = applyAdds (Function.update v p.1 (v p.1 + p.2)) w i := rfl
      have h2 : vecContrib (p :: w) i = vecContrib w i := by
        simp [vecContrib, List.filter_cons, hpi]
      rw [h1, h2, ih, Function.update_noteq (fun hc => hpi hc.symm)]

theorem vecContrib_nil (i : ℕ) : vecContrib [] i = 0 := rfl

theorem vecContrib_cons (p : ℕ × ℚ) (w : List (ℕ × ℚ)) (i : ℕ) :
    vecContrib (p :: w) i = (if p.1 = i then p.2 else 0) + vecContrib w i := by
  by_cases h : p.1 = i <;> simp [vecContrib, List.filter_cons, h]

theorem vecContrib_append (a b : List (ℕ × ℚ)) (i : ℕ) :
    vecContrib (a ++ b) i = vecContrib a i + vecContrib b i := by
  simp [vecContrib, List.filter_append]

theorem vecContrib_of_not_mem (w : List (ℕ × ℚ)) (i : ℕ)
    (h : i ∉ w.map Prod.fst) : vecContrib w i = 0 := by
  induction w with
  | nil => rfl
  | cons p w ih =>
    rw [List.map_cons, List.mem_cons] at h
    push_neg at h
    rw [vecContrib_cons, if_neg (fun hc => h.1 hc.symm), ih h.2, zero_add]

/-- On a per-node write list whose global offsets are pairwise distinct,
the net contribution at a member node's offset is that node's value. -/
theorem vecContrib_map_offset (f : FVM_Node → ℚ) (l : List FVM_Node)
    (n : FVM_Node) (hmem : n ∈ l)
    (hnd : (l.map FVM_Node.global_offset).Nodup) :
    vecContrib (l.map (fun m => (m.global_offset, f m))) n.global_offset
      = f n := by
  induction l with
  | nil => cases hmem
  | cons m l ih =>
    rw [List.map_cons, List.nodup_cons] at hnd
    rw [List.map_cons, vecContrib_cons]
    rcases List.mem_cons.mp hmem with h | h
    · subst h
      rw [if_pos rfl, vecContrib_of_not_mem, add_zero]
      simpa [List.map_map, Function.comp] using hnd.1
    · have hne : m.global_offset ≠ n.global_offset := by
        intro hc
        exact hnd.1 (hc ▸ List.mem_map_of_mem FVM_Node.global_offset h)
      rw [if_neg hne, ih h hnd.2, zero_add]

theorem matContrib_nil (i j : ℕ) : matContrib [] i j = 0 := rfl

theorem matContrib_cons (t : ℕ × ℕ × ℚ) (w : List (ℕ × ℕ × ℚ)) (i j : ℕ) :
    matContrib (t :: w) i j
      = (if t.1 = i ∧ t.2.1 = j then t.2.2 else 0) + matContrib w i j := by
  by_cases h : t.1 = i ∧ t.2.1 = j <;> simp [matContrib, List.filter_cons, h]

theorem matContrib_append (a b : List (ℕ × ℕ × ℚ)) (i j : ℕ) :
    matContrib (a ++ b) i j = matContrib a i j + matContrib b i j := by
  simp [matContrib, List.filter_append]

theorem matContrib_of_not_mem_row (w : List (ℕ × ℕ × ℚ)) (i j : ℕ)
    (h : i ∉ w.map (fun t => t.1)) : matContrib w i j = 0 := by
  induction w with
  | nil => rfl
  | cons t w ih =>
    rw [List.map_cons, List.mem_cons] at h
    push_neg at h
    rw [matContrib_cons, if_neg (fun hc => h.1 hc.1.symm), ih h.2, zero_add]

/-- On a diagonal per-node insertion list with pairwise distinct
offsets, the net contribution at a member node's diagonal position is
that node's value. -/
theorem matContrib_map_diag (f : FVM_Node → ℚ) (l : List FVM_Node)
    (n : FVM_Node) (hmem : n ∈ l)
    (hnd : (l.map FVM_Node.global_offset).Nodup) :
    matContrib (l.map (fun m => (m.global_offset, m.global_offset, f m)))
      n.global_offset n.global_offset = f n := by
  induction l with
  | nil => cases hmem
  | cons m l ih =>
    rw [List.map_cons, List.nodup_cons] at hnd
    rw [List.map_cons, matContrib_cons]
    rcases List.mem_cons.mp hmem with h | h
    · subst h
      rw [if_pos ⟨rfl, rfl⟩, matContrib_of_not_mem_row, add_zero]
      simpa [List.map_map, Function.comp] using hnd.1
    · have hne : m.global_offset ≠ n.global_offset := by
        intro hc
        exact hnd.1 (hc ▸ List.mem_map_of_mem FVM_Node.global_offset h)
      rw [if_neg (fun hc => hne hc.1), ih h hnd.2, zero_add]

/-- A diagonal insertion list never contributes off the diagonal. -/
theorem matContrib_map_diag_ne (f : FVM_Node → ℚ) (l : List FVM_Node)
    (i j : ℕ) (hij : i ≠ j) :
    matContrib (l.map (fun m => (m.global_offset, m.global_offset, f m))) i j
      = 0 := by
  induction l with
  | nil => rfl
  | cons m l ih =>
    rw [List.map_cons, matContrib_cons,
      if_neg (fun hc => hij (hc.1.symm.trans hc.2)), ih, zero_add]

/-! ### Claim C1 -/

/-- C1: for every mesh edge whose two endpoint nodes are both
on-processor (and whose endpoints carry distinct global offsets), the
residual value `DDM1_Function` adds at node2's entry is the exact
negation of the value added at node1's entry, and at every column the
Jacobian row `DDM1_Jacobian` inserts for node2 at columns
`[node1, node2]` is the exact column-wise negation of the row inserted
for node1. -/
theorem C1_edge_conservation (mt : MaterialLaw) (T : ℚ) (x : ℕ → ℚ)
    (e : MeshEdge) (c : ℕ)
    (h1 : e.node1.on_processor = true) (h2 : e.node2.on_processor = true)
    (hne : e.node1.global_offset ≠ e.node2.global_offset) :
    vecContrib (edge_residual mt T x e) e.node2.global_offset
      = -vecContrib (edge_residual mt T x e) e.node1.global_offset
    ∧ matContrib (edge_jacobian mt T x e) e.node2.global_offset c
      = -matContrib (edge_jacobian mt T x e) e.node1.global_offset c := by
  constructor
  · rw [edge_residual]
    simp only [h1, h2, if_true, List.singleton_append]
    simp [vecContrib_cons, vecContrib_nil, hne, Ne.symm hne]
  · rw [edge_jacobian]
    simp only [h1, h2, if_true, List.cons_append, List.nil_append]
    by_cases hc1 : c = e.node1.global_offset
    · subst hc1
      simp [matContrib_cons, matContrib_nil, AD2.neg, hne, Ne.symm hne]
    · by_cases hc2 : c = e.node2.global_offset
      · subst hc2
        simp [matContrib_cons, matContrib_nil, AD2.neg, hne, Ne.symm hne]
      · simp [matContrib_cons, matContrib_nil, Ne.symm hc1, Ne.symm hc2]

/-- Witness for C1 at the concrete sample edge with the linear law. -/
theorem C1_edge_conservation_witness :
    vecContrib (edge_residual sample_law 0 sample_x sample_edge)
        sample_edge.node2.global_offset
      = -vecContrib (edge_residual sample_law 0 sample_x sample_edge)
          sample_edge.node1.global_offset
    ∧ matContrib (edge_jacobian sample_law 0 sample_x sample_edge)
        sample_edge.node2.global_offset sample_edge.node1.global_offset
      = -matContrib (edge_jacobian sample_law 0 sample_x sample_edge)
          sample_edge.node1.global_offset sample_edge.node1.global_offset :=
  C1_edge_conservation sample_law 0 sample_x sample_edge
    sample_edge.node1.global_offset rfl rfl (by decide)

/-! ### Claim C2 -/

/-- C2: for every edge, `DDM1_Function` computes `E = (V2-V1)/distance`
and `f = J(E,T)*|area|` and buffers `+f` at node1 exactly when node1 is
on-processor and `-f` at node2 exactly when node2 is on-processor; and
the row `DDM1_Jacobian` inserts consists of the exact partial
derivatives of that flux in `V1` and `V2` (the AD tangents), at
`(row = node1, cols = [node1, node2])` when node1 is on-processor with
its negation at `(row = node2)` when node2 is.  The law's AD tangent
`dJdE` is assumed to be its exact derivative. -/
theorem C2_edge_flux_exact (mt : MaterialLaw) (T : ℚ) (x : ℕ → ℚ)
    (e : MeshEdge)
    (hlaw : ∀ E : ℚ, HasDerivAt (fun s => mt.J s T) (mt.dJdE E T) E) :
    edge_residual mt T x e =
      (if e.node1.on_processor then
        [(e.node1.global_offset,
          mt.J ((x e.node2.local_offset - x e.node1.local_offset) / e.distance) T
            * |e.cv_surface_area|)] else []) ++
      (if e.node2.on_processor then
        [(e.node2.global_offset,
          -(mt.J ((x e.node2.local_offset - x e.node1.local_offset) / e.distance) T
            * |e.cv_surface_area|))] else [])
    ∧ HasDerivAt
        (fun v : ℚ => mt.J ((x e.node2.local_offset - v) / e.distance) T
          * |e.cv_surface_area|)
        ((edge_flux_AD mt T x e).d0) (x e.node1.local_offset)
    ∧ HasDerivAt
        (fun v : ℚ => mt.J ((v - x e.node1.local_offset) / e.distance) T
          * |e.cv_surface_area|)
        ((edge_flux_AD mt T x e).d1) (x e.node2.local_offset)
    ∧ edge_jacobian mt T x e =
      (if e.node1.on_processor then
        [(e.node1.global_offset, e.node1.global_offset,
            (edge_flux_AD mt T x e).d0),
         (e.node1.global_offset, e.node2.global_offset,
            (edge_flux_AD mt T x e).d1)] else []) ++
      (if e.node2.on_processor then
        [(e.node2.global_offset, e.node1.global_offset,
            -(edge_flux_AD mt T x e).d0),
         (e.node2.global_offset, e.node2.global_offset,
            -(edge_flux_AD mt T x e).d1)] else []) := by
  refine ⟨by simp [edge_residual, edge_flux], ?_, ?_, ?_⟩
  · have hd0 : (edge_flux_AD mt T x e).d0
        = mt.dJdE ((x e.node2.local_offset - x e.node1.local_offset)
            / e.distance) T * (-1 / e.distance) * |e.cv_surface_area| := by
      simp [edge_flux_AD, AD2.sub, AD2.divConst, AD2.mulConst,
        MaterialLaw.evalAD2, zero_sub, neg_div]
    rw [hd0]
    have hinner : HasDerivAt
        (fun v : ℚ => (x e.node2.local_offset - v) / e.distance)
        (-1 / e.distance) (x e.node1.local_offset) := by
      simpa using
        (((hasDerivAt_id (x e.node1.local_offset)).const_sub
          (x e.node2.local_offset)).div_const e.distance)
    exact ((hlaw _).comp _ hinner).mul_const _
  · have hd1 : (edge_flux_AD mt T x e).d1
        = mt.dJdE ((x e.node2.local_offset - x e.node1.local_offset)
            / e.distance) T * (1 / e.distance) * |e.cv_surface_area| := by
      simp [edge_flux_AD, AD2.sub, AD2.divConst, AD2.mulConst,
        MaterialLaw.evalAD2, sub_zero]
    rw [hd1]
    have hinner : HasDerivAt
        (fun v : ℚ => (v - x e.node1.local_offset) / e.distance)
        (1 / e.distance) (x e.node2.local_offset) := by
      simpa using
        (((hasDerivAt_id (x e.node2.local_offset)).sub_const
          (x e.node1.local_offset)).div_const e.distance)
    exact ((hlaw _).comp _ hinner).mul_const _
  · simp [edge_jacobian, AD2.neg]

/-- Witness for C2: the AD-produced Jacobian entry at the sample edge is
the exact derivative of its flux (linear law `J(E,T) = E`, so the
derivative hypothesis holds with tangent 1). -/
theorem C2_edge_flux_exact_witness :
    HasDerivAt
      (fun v : ℚ => sample_law.J ((sample_x sample_edge.node2.local_offset - v)
          / sample_edge.distance) 0 * |sample_edge.cv_surface_area|)
      ((edge_flux_AD sample_law 0 sample_x sample_edge).d0)
      (sample_x sample_edge.node1.local_offset) :=
  (C2_edge_flux_exact sample_law 0 sample_x sample_edge
    (fun E => hasDerivAt_id E)).2.1

/-! ### Claim C3 -/

/-- C3 counterexample: in a region whose low-resistance-solderpad flag
is set, the auxiliary lumped-element term inside `DDM1_Function` still
contributes (the loop at lines 149-168 is not gated by the flag): with
unit parameters and `V - psi = -1` the buffered residual contribution at
the node is `2`, not `0`. -/
theorem C3_counterexample :
    pad_region.connect_to_low_resistance_solderpad = true
    ∧ vecContrib (DDM1_Function_writes pad_region sample_law sample_solver 0
        (fun _ => 1)) sample_node1.global_offset ≠ 0 := by
  constructor
  · rfl
  · norm_num [DDM1_Function_writes, aux_residual_writes, aux_current,
      aux_cap_param, aux_res_param, pad_region, sample_node1, sample_law,
      sample_solver, vecContrib, edge_residual]

/-- C3 (amended): when a region's low-resistance-solderpad flag is set,
the Pseudo-Transient Stabilizer contributes exactly zero — the
pseudo-time-step function issues no additive write and leaves the
residual vector unchanged, the pseudo-time-step Jacobian inserts
nothing, and the convergence test returns 0.  (The auxiliary
lumped-element terms inside `DDM1_Function`/`DDM1_Jacobian` are not
gated by this flag and still contribute.) -/
theorem C3_pad_bypass (cbrt : ℚ → ℚ) (r : MetalSimulationRegion)
    (s : SolverSpecify) (x f : ℕ → ℚ) (flag : InsertMode)
    (hpad : r.connect_to_low_resistance_solderpad = true) :
    (DDM1_Pseudo_Time_Step_Function cbrt r s x f flag).1.filter
        AssemblyEvent.isAdd = []
    ∧ (DDM1_Pseudo_Time_Step_Function cbrt r s x f flag).2.1 = f
    ∧ (DDM1_Pseudo_Time_Step_Jacobian cbrt r s x flag).1 = []
    ∧ DDM1_Pseudo_Time_Step_Convergence_Test cbrt r s x = 0 := by
  refine ⟨?_, ?_, ?_, ?_⟩
  · simp only [DDM1_Pseudo_Time_Step_Function, hpad, if_true]
    split <;> simp [AssemblyEvent.isAdd]
  · simp [DDM1_Pseudo_Time_Step_Function, hpad]
  · simp [DDM1_Pseudo_Time_Step_Jacobian, hpad]
  · simp [DDM1_Pseudo_Time_Step_Convergence_Test, hpad]

/-- Witness for C3 (amended) at the concrete flagged region. -/
theorem C3_pad_bypass_witness :
    (DDM1_Pseudo_Time_Step_Function sample_cbrt pad_region sample_solver
        sample_x (fun _ => 0) InsertMode.INSERT_VALUES).1.filter
        AssemblyEvent.isAdd = []
    ∧ (DDM1_Pseudo_Time_Step_Function sample_cbrt pad_region sample_solver
        sample_x (fun _ => 0) InsertMode.INSERT_VALUES).2.1 = (fun _ => 0)
    ∧ (DDM1_Pseudo_Time_Step_Jacobian sample_cbrt pad_region sample_solver
        sample_x InsertMode.INSERT_VALUES).1 = []
    ∧ DDM1_Pseudo_Time_Step_Convergence_Test sample_cbrt pad_region
        sample_solver sample_x = 0 :=
  C3_pad_bypass sample_cbrt pad_region sample_solver sample_x (fun _ => 0)
    InsertMode.INSERT_VALUES rfl

/-! ### Claim C4 -/

/-- C4: the auxiliary lumped-element block of `DDM1_Function` adds, at
every on-processor node's residual entry,
`current = -cap*(V - V_prev)/dt - (V - V_prev)/res` with
`cap = capacitance/(N+1)` and `res = resistance*(N+1)` and `V_prev` the
node's stored potential; the corresponding block of `DDM1_Jacobian`
adds the exact derivative of this current in `V` at the diagonal
position only (zero at every off-diagonal position). -/
theorem C4_aux_lumped (r : MetalSimulationRegion) (mt : MaterialLaw)
    (s : SolverSpecify) (T : ℚ) (x : ℕ → ℚ) (n : FVM_Node) (i j : ℕ)
    (hmem : n ∈ r.on_processor_nodes)
    (hnd : (r.on_processor_nodes.map FVM_Node.global_offset).Nodup)
    (hij : i ≠ j) :
    DDM1_Function_writes r mt s T x
      = r.edges.flatMap (edge_residual mt T x) ++ aux_residual_writes r s x
    ∧ (DDM1_Jacobian r mt s T x InsertMode.ADD_VALUES).1
      = r.edges.flatMap (edge_jacobian mt T x) ++ aux_jacobian_entries r s x
    ∧ vecContrib (aux_residual_writes r s x) n.global_offset
      = -(r.aux_capacitance
            / ((r.total_nodes_in_connected_resistance_region : ℚ) + 1))
          * (x n.local_offset - n.node_data.psi) / s.dt
        - (x n.local_offset - n.node_data.psi)
          / (r.aux_resistance
              * ((r.total_nodes_in_connected_resistance_region : ℚ) + 1))
    ∧ HasDerivAt (fun V : ℚ =>
        -(r.aux_capacitance
            / ((r.total_nodes_in_connected_resistance_region : ℚ) + 1))
          * (V - n.node_data.psi) / s.dt
        - (V - n.node_data.psi)
          / (r.aux_resistance
              * ((r.total_nodes_in_connected_resistance_region : ℚ) + 1)))
        (matContrib (aux_jacobian_entries r s x) n.global_offset
          n.global_offset)
        (x n.local_offset)
    ∧ matContrib (aux_jacobian_entries r s x) i j = 0 := by
  refine ⟨rfl, rfl, ?_, ?_, ?_⟩
  · rw [aux_residual_writes, vecContrib_map_offset _ _ _ hmem hnd]
    simp [aux_current, aux_cap_param, aux_res_param]
  · rw [aux_jacobian_entries, matContrib_map_diag _ _ _ hmem hnd]
    have hd : (aux_current_AD r s x n).d0
        = -(r.aux_capacitance
              / ((r.total_nodes_in_connected_resistance_region : ℚ) + 1)) * 1
            / s.dt
          - 1 / (r.aux_resistance
              * ((r.total_nodes_in_connected_resistance_region : ℚ) + 1)) := by
      simp [aux_current_AD, AD1.sub, AD1.subConst, AD1.constMul, AD1.divConst,
        aux_cap_param, aux_res_param]
    rw [hd]
    exact ((((hasDerivAt_id (x n.local_offset)).sub_const
        n.node_data.psi).const_mul _).div_const s.dt).sub
      (((hasDerivAt_id (x n.local_offset)).sub_const
        n.node_data.psi).div_const _)
  · exact matContrib_map_diag_ne _ _ _ _ hij

/-- Witness for C4 at the first sample node of the sample region. -/
theorem C4_aux_lumped_witness :
    vecContrib (aux_residual_writes sample_region sample_solver sample_x)
        sample_node1.global_offset
      = -(sample_region.aux_capacitance
            / ((sample_region.total_nodes_in_connected_resistance_region : ℚ)
                + 1))
          * (sample_x sample_node1.local_offset - sample_node1.node_data.psi)
          / sample_solver.dt
        - (sample_x sample_node1.local_offset - sample_node1.node_data.psi)
          / (sample_region.aux_resistance
              * ((sample_region.total_nodes_in_connected_resistance_region : ℚ)
                  + 1))
    ∧ matContrib (aux_jacobian_entries sample_region sample_solver sample_x)
        0 1 = 0 :=
  ⟨(C4_aux_lumped sample_region sample_law sample_solver 0 sample_x
      sample_node1 0 1 (by decide) (by decide) (by decide)).2.2.1,
   (C4_aux_lumped sample_region sample_law sample_solver 0 sample_x
      sample_node1 0 1 (by decide) (by decide) (by decide)).2.2.2.2⟩

/-! ### Claim C5 -/

/-- C5 counterexample: `N * res` with `res = R*(N+1)` is not constant in
`N`; at `R = 1` it is `2` for `N = 1` but `30` for `N = 5`. -/
theorem C5_counterexample :
    ¬ ((1 : ℚ) * aux_res_param 1 1 = (5 : ℚ) * aux_res_param 1 5) := by
  norm_num [aux_res_param]

/-- C5 (amended): the normalization `cap = C/(N+1)`, `res = R*(N+1)`
keeps the totals over `N+1` network elements invariant: `cap*(N+1) = C`
and `res/(N+1) = R` for every network node count `N` (hence the
equivalent impedance of the `N+1`-element network does not depend on
`N`); it is `N+1`, not `N`, that is the invariant multiplier. -/
theorem C5_scaling_invariance (C R : ℚ) (N : ℕ) :
    aux_cap_param C N * ((N : ℚ) + 1) = C
    ∧ aux_res_param R N / ((N : ℚ) + 1) = R := by
  have h : ((N : ℚ) + 1) ≠ 0 := by positivity
  constructor
  · rw [aux_cap_param, div_mul_cancel₀ _ h]
  · rw [aux_res_param, mul_div_cancel_right₀ _ h]

/-! ### Claim C6 -/

/-- C6: in a region not flagged as solderpad-connected, the
pseudo-transient block adds, at every on-processor node's residual
entry, `f = -cap*(V - V_prev)/pseudoTimeStep` with
`cap = conductance * cbrt(nodeVolume * zWidth) * pseudoTimeConstant
/ zWidth / totalNodesInRegion` (`cbrt` the external `pow(x,1/3)`
routine), and the pseudo-time-step Jacobian adds the exact derivative
`df/dV` at the diagonal position only (zero off the diagonal). -/
theorem C6_pseudo_time_step (cbrt : ℚ → ℚ) (r : MetalSimulationRegion)
    (s : SolverSpecify) (x f : ℕ → ℚ) (flag : InsertMode) (n : FVM_Node)
    (i j : ℕ)
    (hpad : r.connect_to_low_resistance_solderpad = false)
    (hmem : n ∈ r.on_processor_nodes)
    (hnd : (r.on_processor_nodes.map FVM_Node.global_offset).Nodup)
    (hij : i ≠ j) :
    (DDM1_Pseudo_Time_Step_Function cbrt r s x f flag).2.1
      = applyAdds f (pseudo_writes cbrt r s x)
    ∧ (DDM1_Pseudo_Time_Step_Jacobian cbrt r s x flag).1
      = pseudo_jacobian_entries cbrt r s x
    ∧ vecContrib (pseudo_writes cbrt r s x) n.global_offset
      = -(r.conductance * cbrt (n.volume * r.z_width) * s.PseudoTimeCMOSTime
            / r.z_width / (r.n_node : ℚ))
          * (x n.local_offset - n.node_data.psi) / s.PseudoTimeStepMetal
    ∧ HasDerivAt (fun V : ℚ =>
        -(r.conductance * cbrt (n.volume * r.z_width) * s.PseudoTimeCMOSTime
            / r.z_width / (r.n_node : ℚ))
          * (V - n.node_data.psi) / s.PseudoTimeStepMetal)
        (matContrib (pseudo_jacobian_entries cbrt r s x) n.global_offset
          n.global_offset)
        (x n.local_offset)
    ∧ matContrib (pseudo_jacobian_entries cbrt r s x) i j = 0 := by
  refine ⟨?_, ?_, ?_, ?_, ?_⟩
  · simp [DDM1_Pseudo_Time_Step_Function, hpad]
  · simp [DDM1_Pseudo_Time_Step_Jacobian, hpad]
  · rw [pseudo_writes, vecContrib_map_offset _ _ _ hmem hnd]
    simp [pseudo_f, pseudo_cap]
  · rw [pseudo_jacobian_entries, matContrib_map_diag _ _ _ hmem hnd]
    have hd : (pseudo_f_AD cbrt r s x n).d0
        = -(r.conductance * cbrt (n.volume * r.z_width) * s.PseudoTimeCMOSTime
              / r.z_width / (r.n_node : ℚ)) * 1 / s.PseudoTimeStepMetal := by
      simp [pseudo_f_AD, pseudo_cap, AD1.subConst, AD1.constMul, AD1.divConst]
    rw [hd]
    exact (((hasDerivAt_id (x n.local_offset)).sub_const
        n.node_data.psi).const_mul _).div_const s.PseudoTimeStepMetal
  · exact matContrib_map_diag_ne _ _ _ _ hij

/-- Witness for C6 at the first sample node of the sample region. -/
theorem C6_pseudo_time_step_witness :
    vecContrib (pseudo_writes sample_cbrt sample_region sample_solver sample_x)
        sample_node1.global_offset
      = -(sample_region.conductance
            * sample_cbrt (sample_node1.volume * sample_region.z_width)
            * sample_solver.PseudoTimeCMOSTime
            / sample_region.z_width / (sample_region.n_node : ℚ))
          * (sample_x sample_node1.local_offset - sample_node1.node_data.psi)
          / sample_solver.PseudoTimeStepMetal
    ∧ matContrib (pseudo_jacobian_entries sample_cbrt sample_region
        sample_solver sample_x) 0 1 = 0 :=
  ⟨(C6_pseudo_time_step sample_cbrt sample_region sample_solver sample_x
      (fun _ => 0) InsertMode.ADD_VALUES sample_node1 0 1 rfl (by decide)
      (by decide) (by decide)).2.2.1,
   (C6_pseudo_time_step sample_cbrt sample_region sample_solver sample_x
      (fun _ => 0) InsertMode.ADD_VALUES sample_node1 0 1 rfl (by decide)
      (by decide) (by decide)).2.2.2.2⟩

/-! ### Claim C7 -/

/-- C7: in a region not flagged as solderpad-connected, the convergence
test returns the count of on-processor nodes classified unconverged,
and a node is classified unconverged exactly when BOTH
`fAbs = |-cap*(V-V_prev)/pseudoTimeStep|` strictly exceeds
`PseudoTimeTolRelax * 0.5 * (elec_abs_toler + hole_abs_toler)` AND
`relChange = |cap*(V-V_prev)|/(|V|+|V_prev|+1e-10)` strictly exceeds
`relative_toler`; in particular a node whose quantities only equal the
thresholds is classified converged. -/
theorem C7_convergence_test (cbrt : ℚ → ℚ) (r : MetalSimulationRegion)
    (s : SolverSpecify) (x : ℕ → ℚ) (n : FVM_Node)
    (hpad : r.connect_to_low_resistance_solderpad = false) :
    DDM1_Pseudo_Time_Step_Convergence_Test cbrt r s x
      = r.on_processor_nodes.countP (node_unconverged cbrt r s x)
    ∧ (node_unconverged cbrt r s x n = true ↔
        |(-(pseudo_cap cbrt r s n) * (x n.local_offset - n.node_data.psi)
            / s.PseudoTimeStepMetal)|
          > s.PseudoTimeTolRelax * (1 / 2)
            * (s.elec_continuity_abs_toler + s.hole_continuity_abs_toler)
        ∧ |pseudo_cap cbrt r s n * (x n.local_offset - n.node_data.psi)|
            / (|x n.local_offset| + |n.node_data.psi| + 1 / 10 ^ 10)
          > s.relative_toler) := by
  constructor
  · rw [DDM1_Pseudo_Time_Step_Convergence_Test, if_neg (by simp [hpad]),
      List.countP_eq_length_filter]
  · simp [node_unconverged, Bool.and_eq_true, decide_eq_true_eq]

/-- Witness for C7 at a boundary configuration: at the first sample node
`fAbs = 1` equals the relaxed absolute tolerance exactly (and
`relChange < relative_toler`), so the node is classified converged. -/
theorem C7_convergence_test_witness :
    node_unconverged sample_cbrt sample_region sample_solver sample_x
        sample_node1 = false
    ∧ DDM1_Pseudo_Time_Step_Convergence_Test sample_cbrt sample_region
        sample_solver sample_x
      = sample_region.on_processor_nodes.countP
          (node_unconverged sample_cbrt sample_region sample_solver
            sample_x) := by
  have h := C7_convergence_test sample_cbrt sample_region sample_solver
    sample_x sample_node1 rfl
  refine ⟨?_, h.1⟩
  rw [Bool.eq_false_iff, ne_eq, h.2]
  norm_num [pseudo_cap, sample_cbrt, sample_region, sample_node1,
    sample_solver, sample_x]

/-! ### Claim C8 -/

theorem barrierBeforeFirstAdd_barrier_cons (tr : List AssemblyEvent) :
    barrierBeforeFirstAdd (AssemblyEvent.barrier :: tr) = true := by
  simp [barrierBeforeFirstAdd, hasBarrier, List.takeWhile_cons,
    AssemblyEvent.isAdd, AssemblyEvent.isBarrier]

/-- C8 counterexample: entered in the unset state, `DDM1_Function`
issues additive writes with no preceding barrier (the code only
assembles when the flag is neither additive nor unset); and
`DDM1_Pseudo_Time_Step_Function` entered in overwrite mode on a
solderpad-flagged region returns with the flag still in overwrite mode,
not additive. -/
theorem C8_counterexample :
    hasAdd (DDM1_Function sample_region sample_law sample_solver 0 sample_x
        (fun _ => 0) InsertMode.NOT_SET_VALUES).1 = true
    ∧ hasBarrier (DDM1_Function sample_region sample_law sample_solver 0
        sample_x (fun _ => 0) InsertMode.NOT_SET_VALUES).1 = false
    ∧ (DDM1_Pseudo_Time_Step_Function sample_cbrt pad_region sample_solver
        sample_x (fun _ => 0) InsertMode.INSERT_VALUES).2.2
      ≠ InsertMode.ADD_VALUES := by
  refine ⟨?_, ?_, ?_⟩
  · simp [DDM1_Function, hasAdd, DDM1_Function_writes, aux_residual_writes,
      edge_residual, sample_region, sample_edge, sample_node1, sample_node2,
      AssemblyEvent.isAdd]
  · simp [DDM1_Function, hasBarrier, DDM1_Function_writes, aux_residual_writes,
      edge_residual, sample_region, sample_edge, sample_node1, sample_node2,
      AssemblyEvent.isBarrier]
  · simp [DDM1_Pseudo_Time_Step_Function, pad_region]

/-- C8 (amended): when a residual assembler is entered in overwrite mode
the synchronization barrier completes before any additive write (in the
unset state no barrier is issued — there is nothing to flush);
`DDM1_Function` always returns with the flag additive, while
`DDM1_Pseudo_Time_Step_Function` returns with the flag additive unless
the solderpad early return leaves it unchanged. -/
theorem C8_insert_mode_guard (r r2 : MetalSimulationRegion)
    (mt : MaterialLaw) (s : SolverSpecify) (T : ℚ) (cbrt : ℚ → ℚ)
    (x f x2 f2 : ℕ → ℚ) (flag flagB : InsertMode)
    (hflag : flag = InsertMode.INSERT_VALUES) :
    barrierBeforeFirstAdd (DDM1_Function r mt s T x f flag).1 = true
    ∧ (DDM1_Function r mt s T x f flagB).2.2 = InsertMode.ADD_VALUES
    ∧ barrierBeforeFirstAdd
        (DDM1_Pseudo_Time_Step_Function cbrt r2 s x2 f2 flag).1 = true
    ∧ (DDM1_Pseudo_Time_Step_Function cbrt r2 s x2 f2 flagB).2.2
      = (if r2.connect_to_low_resistance_solderpad then flagB
         else InsertMode.ADD_VALUES) := by
  subst hflag
  refine ⟨?_, rfl, ?_, ?_⟩
  · have h : (DDM1_Function r mt s T x f InsertMode.INSERT_VALUES).1
        = AssemblyEvent.barrier :: (DDM1_Function_writes r mt s T x).map
            (fun p => AssemblyEvent.add p.1 p.2) := by
      simp [DDM1_Function]
    rw [h]
    exact barrierBeforeFirstAdd_barrier_cons _
  · by_cases hpad : r2.connect_to_low_resistance_solderpad = true
    · have h : (DDM1_Pseudo_Time_Step_Function cbrt r2 s x2 f2
          InsertMode.INSERT_VALUES).1 = [AssemblyEvent.barrier] := by
        simp [DDM1_Pseudo_Time_Step_Function, hpad]
      rw [h]
      exact barrierBeforeFirstAdd_barrier_cons []
    · have h : (DDM1_Pseudo_Time_Step_Function cbrt r2 s x2 f2
          InsertMode.INSERT_VALUES).1
          = AssemblyEvent.barrier :: (pseudo_writes cbrt r2 s x2).map
              (fun p => AssemblyEvent.add p.1 p.2) := by
        simp [DDM1_Pseudo_Time_Step_Function, hpad]
      rw [h]
      exact barrierBeforeFirstAdd_barrier_cons _
  · by_cases hpad : r2.connect_to_low_resistance_solderpad = true <;>
      simp [DDM1_Pseudo_Time_Step_Function, hpad]

/-- Witness for C8 (amended) at concrete regions and flags. -/
theorem C8_insert_mode_guard_witness :
    barrierBeforeFirstAdd (DDM1_Function sample_region sample_law
        sample_solver 0 sample_x (fun _ => 0) InsertMode.INSERT_VALUES).1
      = true
    ∧ (DDM1_Function sample_region sample_law sample_solver 0 sample_x
        (fun _ => 0) InsertMode.NOT_SET_VALUES).2.2 = InsertMode.ADD_VALUES
    ∧ barrierBeforeFirstAdd (DDM1_Pseudo_Time_Step_Function sample_cbrt
        pad_region sample_solver sample_x (fun _ => 0)
        InsertMode.INSERT_VALUES).1 = true
    ∧ (DDM1_Pseudo_Time_Step_Function sample_cbrt pad_region sample_solver
        sample_x (fun _ => 0) InsertMode.NOT_SET_VALUES).2.2
      = (if pad_region.connect_to_low_resistance_solderpad then
          InsertMode.NOT_SET_VALUES else InsertMode.ADD_VALUES) :=
  C8_insert_mode_guard sample_region pad_region sample_law sample_solver 0
    sample_cbrt sample_x (fun _ => 0) sample_x (fun _ => 0)
    InsertMode.INSERT_VALUES InsertMode.NOT_SET_VALUES rfl

/-! ### Claim C9 -/

/-- C9: `DDM1_Update_Solution` maps every node of the local iteration to
a node whose `psi_last` holds exactly the pre-call `psi` and whose `psi`
holds the accepted solution entry at the node's local offset, touching
no other node field; every updated node arises this way, and no other
region state is modified. -/
theorem C9_update_solution (r : MetalSimulationRegion) (lxx : ℕ → ℚ)
    (n : FVM_Node) (hmem : n ∈ r.on_local_nodes) :
    ({ n with node_data :=
        { psi := lxx n.local_offset, psi_last := n.node_data.psi } } : FVM_Node)
        ∈ (DDM1_Update_Solution r lxx).on_local_nodes
    ∧ (DDM1_Update_Solution r lxx).on_local_nodes
      = r.on_local_nodes.map (fun n0 =>
          { n0 with node_data :=
            { psi := lxx n0.local_offset, psi_last := n0.node_data.psi } })
    ∧ (DDM1_Update_Solution r lxx).edges = r.edges
    ∧ (DDM1_Update_Solution r lxx).on_processor_nodes = r.on_processor_nodes
    ∧ (DDM1_Update_Solution r lxx).conductance = r.conductance
    ∧ (DDM1_Update_Solution r lxx).aux_capacitance = r.aux_capacitance
    ∧ (DDM1_Update_Solution r lxx).aux_resistance = r.aux_resistance
    ∧ (DDM1_Update_Solution r lxx).total_nodes_in_connected_resistance_region
      = r.total_nodes_in_connected_resistance_region
    ∧ (DDM1_Update_Solution r lxx).z_width = r.z_width
    ∧ (DDM1_Update_Solution r lxx).n_node = r.n_node
    ∧ (DDM1_Update_Solution r lxx).connect_to_low_resistance_solderpad
      = r.connect_to_low_resistance_solderpad :=
  ⟨List.mem_map_of_mem _ hmem, rfl, rfl, rfl, rfl, rfl, rfl, rfl, rfl, rfl,
   rfl⟩

/-- Witness for C9: updating the sample region commits `psi = 2` of the
first node into `psi_last` and stores the solution entry `10` as the new
`psi`. -/
theorem C9_update_solution_witness :
    ({ sample_node1 with node_data :=
        { psi := (fun i => (i : ℚ) + 10) sample_node1.local_offset,
          psi_last := sample_node1.node_data.psi } } : FVM_Node)
        ∈ (DDM1_Update_Solution sample_region
            (fun i => (i : ℚ) + 10)).on_local_nodes
    ∧ (DDM1_Update_Solution sample_region
        (fun i => (i : ℚ) + 10)).on_local_nodes
      = sample_region.on_local_nodes.map (fun n0 =>
          { n0 with node_data :=
            { psi := (fun i => (i : ℚ) + 10) n0.local_offset,
              psi_last := n0.node_data.psi } }) :=
  ⟨(C9_update_solution sample_region (fun i => (i : ℚ) + 10) sample_node1
      (by decide)).1,
   (C9_update_solution sample_region (fun i => (i : ℚ) + 10) sample_node1
      (by decide)).2.1⟩

/-! ### Claim C10 -/

/-- C10: `DDM1_Fill_Value` overwrites, for every on-processor node, the
solution vector at the node's global offset with the stored potential
`psi` and the scaling vector at the same offset with
`1/(conductance * volume)`; every other index of both vectors is left
unchanged and the insertion-mode flag is not touched. -/
theorem C10_fill_value (r : MetalSimulationRegion) (st : FillState)
    (n : FVM_Node) (g : ℕ)
    (hmem : n ∈ r.on_processor_nodes)
    (hnd : (r.on_processor_nodes.map FVM_Node.global_offset).Nodup)
    (hg : g ∉ r.on_processor_nodes.map FVM_Node.global_offset) :
    (DDM1_Fill_Value r st).x n.global_offset = n.node_data.psi
    ∧ (DDM1_Fill_Value r st).L n.global_offset
      = 1 / (r.conductance * n.volume)
    ∧ (DDM1_Fill_Value r st).x g = st.x g
    ∧ (DDM1_Fill_Value r st).L g = st.L g
    ∧ (DDM1_Fill_Value r st).add_value_flag = st.add_value_flag := by
  have hkeys1 : (DDM1_Fill_Value_writes r).1.map Prod.fst
      = r.on_processor_nodes.map FVM_Node.global_offset := by
    simp [DDM1_Fill_Value_writes, List.map_map, Function.comp]
  have hkeys2 : (DDM1_Fill_Value_writes r).2.map Prod.fst
      = r.on_processor_nodes.map FVM_Node.global_offset := by
    simp [DDM1_Fill_Value_writes, List.map_map, Function.comp]
  refine ⟨?_, ?_, ?_, ?_, rfl⟩
  · exact applyInserts_of_mem_nodup _ _ _ _ (by rw [hkeys1]; exact hnd)
      (List.mem_map_of_mem _ hmem)
  · exact applyInserts_of_mem_nodup _ _ _ _ (by rw [hkeys2]; exact hnd)
      (List.mem_map_of_mem _ hmem)
  · exact applyInserts_of_not_mem _ _ _ (by rw [hkeys1]; exact hg)
  · exact applyInserts_of_not_mem _ _ _ (by rw [hkeys2]; exact hg)

/-- Witness for C10 at the sample region and a sample state: index 5 is
not written, the flag stays unset. -/
theorem C10_fill_value_witness :
    (DDM1_Fill_Value sample_region sample_fill_state).x
        sample_node1.global_offset = sample_node1.node_data.psi
    ∧ (DDM1_Fill_Value sample_region sample_fill_state).L
        sample_node1.global_offset
      = 1 / (sample_region.conductance * sample_node1.volume)
    ∧ (DDM1_Fill_Value sample_region sample_fill_state).x 5
      = sample_fill_state.x 5
    ∧ (DDM1_Fill_Value sample_region sample_fill_state).L 5
      = sample_fill_state.L 5
    ∧ (DDM1_Fill_Value sample_region sample_fill_state).add_value_flag
      = sample_fill_state.add_value_flag :=
  C10_fill_value sample_region sample_fill_state sample_node1 5 (by decide)
    (by decide) (by decide)
